import Mathlib

/-
Verification development for the rislive BGP feed library.

Part 1 translates the code of src/rislive.go into Lean: the announcement and
message records, the exact-match MatchPrefix, the stub MatchASPath, and the
Listen loop (transport selection plus the JSON decode loop).  Part 2 models,
from the specification, the components of the current library whose code is
absent from src/ and only visible through its tests: path digestion, the
AS-path fragment predicate, the transit-AS predicate, CIDR containment, and
the queue-based ingestion loop.
-/

/-- Translated from src/rislive.go: RisAnnouncement holds one announcement,
a next hop and its list of CIDR prefix strings. -/
structure RisAnnouncement where
  nextHop : String
  prefixes : List String

/-- Translated from src/rislive.go: RisMessageData, the data member of one
ris_message record.  The Go struct stores Path as []int32 and Timestamp as
float64; the pointer indirection of the announcements slice is dropped. -/
structure RisMessageData where
  timestamp : Float
  peer : String
  peerASN : String
  id : String
  host : String
  type : String
  path : List Int
  community : List (List Int)
  origin : String
  announcements : List RisAnnouncement
  raw : String

/-- Translated from src/rislive.go: RisMessage, one decoded feed record.
The Go field Data is a pointer; it is modelled as a plain value. -/
structure RisMessage where
  type : String
  data : RisMessageData

/-- Translated from src/rislive.go lines 53-57: MatchASPath ignores both the
receiver and the candidate fragment and returns false unconditionally. -/
def RisMessageData.MatchASPath (_r : RisMessageData) (_c : List String) : Bool :=
  false

/-- Translated from src/rislive.go lines 64-75: MatchPrefix walks the candidate
list and the announcement's prefix list and returns true on the first exact
string equality; the nested loops with early return are the two `any`s. -/
def RisAnnouncement.MatchPrefix (r : RisAnnouncement) (cs : List String) : Bool :=
  cs.any (fun c => r.prefixes.any (fun p => c == p))

/-- Translated from src/rislive.go lines 95-116: the decode loop of Listen.
The json decoder is modelled by the list of outcomes of successive Decode
calls (`Except.error e` = Decode returned an error, list end = More() became
false).  On a decode error the code prints two diagnostic lines and returns;
on success it prints a summary line for the record and continues.  The result
pair collects the records processed in order and the log lines produced on
the error path (the per-record summary prints are elided as pure IO). -/
def listenLoop : List (Except String RisMessage) → List RisMessage × List String
  | [] => ([], [])
  | Except.error e :: _ => ([], ["failed to decode json: " ++ e])
  | Except.ok rm :: rest =>
    let r := listenLoop rest
    (rm :: r.1, r.2)

/-- Translated from src/rislive.go lines 77-93: the four ways the transport
selection step of Listen can go.  `remoteOk`/`fileOk` carry the byte stream as
the list of decode outcomes it will produce; `remoteConnectError` is http.Get
returning a non-nil error (and hence a nil response); `fileReadError` is
ioutil.ReadFile failing (fd is then nil and the loop reads an empty stream). -/
inductive TransportOutcome where
  | remoteOk (body : List (Except String RisMessage))
  | remoteConnectError
  | fileOk (body : List (Except String RisMessage))
  | fileReadError

/-- Outcome of a run of Listen: either the loop ran to termination with the
given processed records and logs, or the program crashed on a nil-pointer
dereference after logging the given lines. -/
inductive ListenOutcome where
  | ran (records : List RisMessage) (logs : List String)
  | nilDereference (logs : List String)

/-- Translated from src/rislive.go lines 77-116: Listen.  On the remote branch,
when http.Get returns an error the code logs `failed to connect` but does NOT
return: resp is nil at that point, so the very next statements
(`defer resp.Body.Close()` and `body = resp.Body`) dereference a nil pointer
and the program panics.  On the file branch a read error is logged and the
loop then runs over an empty reader. -/
def listen : TransportOutcome → ListenOutcome
  | TransportOutcome.remoteOk body =>
    let r := listenLoop body
    ListenOutcome.ran r.1 r.2
  | TransportOutcome.remoteConnectError =>
    ListenOutcome.nilDereference ["failed to connect to ris-live"]
  | TransportOutcome.fileOk body =>
    let r := listenLoop body
    ListenOutcome.ran r.1 r.2
  | TransportOutcome.fileReadError =>
    let r := listenLoop ([] : List (Except String RisMessage))
    ListenOutcome.ran r.1 ("failed to read risFile" :: r.2)

/-- Modelled from the spec: a leaf of the raw heterogeneous AS path (§4.1, §9)
is either a JSON number or a string/word; the digestPath implementation this
models is absent from src/ and visible only through TestDigestPath. -/
inductive RawLeaf where
  | num (n : Int)
  | word (s : String)
deriving DecidableEq

/-- Modelled from the spec: an element of the raw path is a leaf or a one-level
nested sequence (an AS-set); nested sequences are assumed not to nest further
(§4.1), which this type enforces. -/
inductive RawElem where
  | leaf (l : RawLeaf)
  | asSet (ls : List RawLeaf)
deriving DecidableEq

/-- Wrap an integer to the int32 range, as the Go conversion int32(v) does. -/
def wrap32 (n : Int) : Int :=
  (n + 2 ^ 31) % 2 ^ 32 - 2 ^ 31

/-- Modelled from the spec: digesting one leaf (§4.1) — a number converts to a
32-bit integer, a string/word fails the whole record with a DigestError. -/
def digestLeaf : RawLeaf → Except String Int
  | RawLeaf.num n => Except.ok (wrap32 n)
  | RawLeaf.word s => Except.error ("non int32 element in path: " ++ s)

/-- Modelled from the spec: digesting the leaves of one nested AS-set, in their
original order, failing on the first string/word. -/
def digestSet : List RawLeaf → Except String (List Int)
  | [] => Except.ok []
  | l :: ls =>
    match digestLeaf l with
    | Except.error e => Except.error e
    | Except.ok v =>
      match digestSet ls with
      | Except.error e => Except.error e
      | Except.ok vs => Except.ok (v :: vs)

/-- Modelled from the spec: digest (§4.1) walks the raw path left to right,
converting number leaves and flattening each nested AS-set exactly one level
with its leaves appended in their original order; any string/word leaf fails
the whole record with a DigestError and no partial sequence is produced. -/
def digest : List RawElem → Except String (List Int)
  | [] => Except.ok []
  | RawElem.leaf l :: rest =>
    match digestLeaf l with
    | Except.error e => Except.error e
    | Except.ok v =>
      match digest rest with
      | Except.error e => Except.error e
      | Except.ok vs => Except.ok (v :: vs)
  | RawElem.asSet ls :: rest =>
    match digestSet ls with
    | Except.error e => Except.error e
    | Except.ok vs =>
      match digest rest with
      | Except.error e => Except.error e
      | Except.ok rest2 => Except.ok (vs ++ rest2)

/-- The leaves of a raw path, left to right, with each nested AS-set flattened
one level in place.  Used to state what digest computes. -/
def pathLeaves : List RawElem → List RawLeaf
  | [] => []
  | RawElem.leaf l :: r => l :: pathLeaves r
  | RawElem.asSet ls :: r => ls ++ pathLeaves r

/-- Whether a leaf is numeric. -/
def leafNum : RawLeaf → Bool
  | RawLeaf.num _ => true
  | RawLeaf.word _ => false

/-- The int32 value of a numeric leaf (junk value 0 on a word). -/
def leafVal : RawLeaf → Int
  | RawLeaf.num n => wrap32 n
  | RawLeaf.word _ => 0

/-- Whether the path begins with the given fragment (element-wise equality). -/
def leadsWith : List Int → List Int → Bool
  | [], _ => true
  | _ :: _, [] => false
  | a :: as, b :: bs => a == b && leadsWith as bs

/-- Whether the fragment occurs starting at some position of the path: try the
current position, then slide one element to the right. -/
def scanFragment (frag : List Int) : List Int → Bool
  | [] => false
  | x :: xs => leadsWith frag (x :: xs) || scanFragment frag xs

/-- Modelled from the spec: the AS-path fragment predicate of §4.3 (the int32
MatchASPath of the current library, exercised by TestMatchASPath but absent
from src/): an empty fragment is the `no constraint configured` convention and
returns true; a non-empty fragment is searched for as an exact contiguous
substring of the digested path. -/
def matchASPathFragment (digestedPath : List Int) (frag : List Int) : Bool :=
  match frag with
  | [] => true
  | _ :: _ => scanFragment frag digestedPath

/-- Modelled from the spec: the transit-AS predicate of §4.3 (the
InvalidTransitAS method of the current library, exercised by
TestInvalidTransitAS but absent from src/): every element of the digested path
except index 0 is tested for membership in the deny-set; the deny-set
map[int32]bool is modelled as the list of keys mapped to true. -/
def invalidTransitAS (digestedPath : List Int) (invalid : List Int) : Bool :=
  (digestedPath.drop 1).any (fun a => invalid.contains a)

/-- Address family of a parsed CIDR prefix. -/
inductive IPFamily where
  | v4
  | v6
deriving DecidableEq

/-- A parsed CIDR prefix: family, address value, prefix length. -/
structure CIDR where
  family : IPFamily
  addr : Nat
  plen : Nat
deriving DecidableEq

/-- Value of a decimal digit character. -/
def digitVal (c : Char) : Option Nat :=
  if c.isDigit then some (c.toNat - 48) else none

/-- Value of a hexadecimal digit character. -/
def hexVal (c : Char) : Option Nat :=
  if c.isDigit then some (c.toNat - 48)
  else if 'a' ≤ c ∧ c ≤ 'f' then some (c.toNat - 87)
  else if 'A' ≤ c ∧ c ≤ 'F' then some (c.toNat - 55)
  else none

def decNatAux : List Char → Nat → Option Nat
  | [], acc => some acc
  | c :: cs, acc =>
    match digitVal c with
    | some d => decNatAux cs (acc * 10 + d)
    | none => none

/-- Parse a non-empty all-decimal string to a Nat. -/
def decNat : List Char → Option Nat
  | [] => none
  | cs => decNatAux cs 0

def hexNatAux : List Char → Nat → Option Nat
  | [], acc => some acc
  | c :: cs, acc =>
    match hexVal c with
    | some d => hexNatAux cs (acc * 16 + d)
    | none => none

/-- Parse a non-empty all-hex string to a Nat. -/
def hexNat : List Char → Option Nat
  | [] => none
  | cs => hexNatAux cs 0

/-- Split a character list on a separator; n separators yield n+1 groups. -/
def splitOnChar (sep : Char) : List Char → List (List Char)
  | [] => [[]]
  | c :: cs =>
    if c = sep then
      [] :: splitOnChar sep cs
    else
      match splitOnChar sep cs with
      | [] => [[c]]
      | g :: gs => (c :: g) :: gs

/-- One dotted-quad octet: 1-3 decimal digits, value at most 255. -/
def parseOctet (cs : List Char) : Option Nat :=
  if cs.length = 0 ∨ 3 < cs.length then none
  else
    match decNat cs with
    | some n => if n ≤ 255 then some n else none
    | none => none

def parseOctets : List (List Char) → Option (List Nat)
  | [] => some []
  | g :: gs =>
    match parseOctet g, parseOctets gs with
    | some n, some ns => some (n :: ns)
    | _, _ => none

/-- Modelled from the spec: parse a dotted-quad IPv4 address to its 32-bit
value. -/
def parseIPv4 (cs : List Char) : Option Nat :=
  match parseOctets (splitOnChar '.' cs) with
  | some [a, b, c, d] => some (((a * 256 + b) * 256 + c) * 256 + d)
  | _ => none

/-- One IPv6 group: 1-4 hexadecimal digits. -/
def parseGroup (cs : List Char) : Option Nat :=
  if cs.length = 0 ∨ 4 < cs.length then none else hexNat cs

def parseGroups : List (List Char) → Option (List Nat)
  | [] => some []
  | g :: gs =>
    match parseGroup g, parseGroups gs with
    | some n, some ns => some (n :: ns)
    | _, _ => none

/-- Value of a sequence of 16-bit groups, big-endian. -/
def groupsVal (gs : List Nat) : Nat :=
  gs.foldl (fun acc g => acc * 65536 + g) 0

/-- Split a group list at its first empty group (the `::` marker), returning
the groups before and after it; none when every group is non-empty. -/
def splitFirstEmpty : List (List Char) → Option (List (List Char) × List (List Char))
  | [] => none
  | [] :: rest => some ([], rest)
  | g :: rest =>
    match splitFirstEmpty rest with
    | some p => some (g :: p.1, p.2)
    | none => none

/-- A leading `::` yields two leading empty groups after splitting on the
colon; collapse them to one marker. -/
def dedupLeading : List (List Char) → List (List Char)
  | [] :: [] :: rest => [] :: rest
  | p => p

/-- Collapse the double empty groups a leading or trailing `::` produces. -/
def dedupEnds (parts : List (List Char)) : List (List Char) :=
  (dedupLeading (dedupLeading parts).reverse).reverse

/-- Modelled from the spec: parse an IPv6 address (colon groups, at most one
`::` compression) to its 128-bit value.  The grammar is permissive at the
margins; every address the claims mention parses or fails as net.ParseCIDR
would. -/
def parseIPv6 (cs : List Char) : Option Nat :=
  let parts := dedupEnds (splitOnChar ':' cs)
  match splitFirstEmpty parts with
  | none =>
    if parts.length = 8 then
      match parseGroups parts with
      | some gs => some (groupsVal gs)
      | none => none
    else none
  | some (l, r) =>
    if l.length + r.length ≤ 7 ∧ (splitFirstEmpty r).isNone then
      match parseGroups l, parseGroups r with
      | some gl, some gr =>
        some (groupsVal (gl ++ List.replicate (8 - l.length - r.length) 0 ++ gr))
      | _, _ => none
    else none

/-- Bit width of an address family. -/
def famBits : IPFamily → Nat
  | IPFamily.v4 => 32
  | IPFamily.v6 => 128

/-- The network address of `a` under a prefix mask of length `plen`: clear
all bits below the mask. -/
def maskAddr (fam : IPFamily) (plen : Nat) (a : Nat) : Nat :=
  a / 2 ^ (famBits fam - plen) * 2 ^ (famBits fam - plen)

/-- Modelled from the spec: parse CIDR text `address/len` into family,
address value and prefix length; any malformation yields none. -/
def parseCIDR (s : String) : Option CIDR :=
  match splitOnChar '/' s.data with
  | [addrPart, lenPart] =>
    match decNat lenPart with
    | none => none
    | some n =>
      if addrPart.contains ':' then
        match parseIPv6 addrPart with
        | some a => if n ≤ 128 then some ⟨IPFamily.v6, a, n⟩ else none
        | none => none
      else
        match parseIPv4 addrPart with
        | some a => if n ≤ 32 then some ⟨IPFamily.v4, a, n⟩ else none
        | none => none
  | _ => none

/-- Modelled from the spec: the prefix-containment check of §4.2 (the
CheckPrefix containment logic of the current library, exercised by
TestCheckPrefix but absent from src/): true iff both sides parse, the
families agree, the candidate prefix is at least as long, and the candidate
network address under the container mask equals the container network
address; malformed CIDR text on either side yields false. -/
def contains (container candidate : String) : Bool :=
  match parseCIDR container, parseCIDR candidate with
  | some c, some d =>
    decide (c.family = d.family) && decide (c.plen ≤ d.plen) &&
      decide (maskAddr c.family c.plen d.addr = maskAddr c.family c.plen c.addr)
  | _, _ => false

/-- Modelled from the spec: the MessageData of the queue-based ingestion loop
(§3, §6): the raw heterogeneous path, the derived digestedPath (absent/empty
until digestion succeeds), and the opaque raw hex payload; the remaining
fields of the record do not bear on the claims and are elided. -/
structure MessageData where
  rawPath : List RawElem
  digestedPath : List Int
  raw : String
deriving DecidableEq

/-- Modelled from the spec: the ingestion loop of §4.4 with the caller-owned
output queue (the Listen of the current library, exercised by TestListen but
absent from src/): records are decoded in sequence; a decode error is fatal;
each record's path is digested and a digestion failure is fatal; each
successfully digested record is pushed, in order, onto the output queue.  The
bounded queue with blocking backpressure is modelled as the ordered list of
records pushed; the result pair is (queue contents, log lines). -/
def listenQueue : List (Except String MessageData) → List MessageData × List String
  | [] => ([], [])
  | Except.error e :: _ => ([], ["failed to decode json: " ++ e])
  | Except.ok m :: rest =>
    match digest m.rawPath with
    | Except.error e => ([], ["failed to digest path: " ++ e])
    | Except.ok dp =>
      let r := listenQueue rest
      ({ m with digestedPath := dp } :: r.1, r.2)

theorem digestSet_ok (ls : List RawLeaf) (h : ∀ l ∈ ls, leafNum l = true) :
    digestSet ls = Except.ok (ls.map leafVal) := by
  induction ls with
  | nil => rfl
  | cons l ls ih =>
    cases l with
    | num n =>
      have h2 : ∀ x ∈ ls, leafNum x = true := fun x hx => h x (List.mem_cons_of_mem _ hx)
      simp [digestSet, digestLeaf, ih h2, leafVal]
    | word s =>
      have := h (RawLeaf.word s) (List.mem_cons_self _ _)
      simp [leafNum] at this

theorem digestSet_err (ls : List RawLeaf) (h : ∃ l ∈ ls, leafNum l = false) :
    ∃ e, digestSet ls = Except.error e := by
  induction ls with
  | nil => simp at h
  | cons l ls ih =>
    cases l with
    | num n =>
      have h2 : ∃ x ∈ ls, leafNum x = false := by
        obtain ⟨x, hx, hxf⟩ := h
        rcases List.mem_cons.mp hx with heq | hmem
        · subst heq; simp [leafNum] at hxf
        · exact ⟨x, hmem, hxf⟩
      obtain ⟨e, he⟩ := ih h2
      exact ⟨e, by simp [digestSet, digestLeaf, he]⟩
    | word s => exact ⟨"non int32 element in path: " ++ s, by simp [digestSet, digestLeaf]⟩

theorem digest_ok (path : List RawElem) (h : ∀ l ∈ pathLeaves path, leafNum l = true) :
    digest path = Except.ok ((pathLeaves path).map leafVal) := by
  induction path with
  | nil => rfl
  | cons el rest ih =>
    cases el with
    | leaf l =>
      cases l with
      | num n =>
        have h2 : ∀ x ∈ pathLeaves rest, leafNum x = true := by
          intro x hx
          exact h x (by simp [pathLeaves, hx])
        simp [digest, digestLeaf, ih h2, pathLeaves, leafVal]
      | word s =>
        have := h (RawLeaf.word s) (by simp [pathLeaves])
        simp [leafNum] at this
    | asSet ls =>
      have hset : ∀ x ∈ ls, leafNum x = true := by
        intro x hx
        exact h x (by simp [pathLeaves, hx])
      have h2 : ∀ x ∈ pathLeaves rest, leafNum x = true := by
        intro x hx
        exact h x (by simp [pathLeaves, hx])
      simp [digest, digestSet_ok ls hset, ih h2, pathLeaves]

theorem digest_err (path : List RawElem) (h : ∃ l ∈ pathLeaves path, leafNum l = false) :
    ∃ e, digest path = Except.error e := by
  induction path with
  | nil => simp [pathLeaves] at h
  | cons el rest ih =>
    cases el with
    | leaf l =>
      cases l with
      | num n =>
        have h2 : ∃ x ∈ pathLeaves rest, leafNum x = false := by
          obtain ⟨x, hx, hxf⟩ := h
          simp [pathLeaves] at hx
          rcases hx with hexq | hmem
          · subst hexq; simp [leafNum] at hxf
          · exact ⟨x, hmem, hxf⟩
        obtain ⟨e, he⟩ := ih h2
        exact ⟨e, by simp [digest, digestLeaf, he]⟩
      | word s => exact ⟨"non int32 element in path: " ++ s, by simp [digest, digestLeaf]⟩
    | asSet ls =>
      by_cases hs : ∀ x ∈ ls, leafNum x = true
      · have h2 : ∃ x ∈ pathLeaves rest, leafNum x = false := by
          obtain ⟨x, hx, hxf⟩ := h
          simp [pathLeaves] at hx
          rcases hx with hmem | hmem
          · rw [hs x hmem] at hxf; exact absurd hxf (by simp)
          · exact ⟨x, hmem, hxf⟩
        obtain ⟨e, he⟩ := ih h2
        exact ⟨e, by simp [digest, digestSet_ok ls hs, he]⟩
      · have hset : ∃ x ∈ ls, leafNum x = false := by
          push_neg at hs
          obtain ⟨x, hx, hxf⟩ := hs
          exact ⟨x, hx, by simpa using hxf⟩
        obtain ⟨e, he⟩ := digestSet_err ls hset
        exact ⟨e, by simp [digest, he]⟩

/-- C10: MatchASPath returns false for every message and every candidate
fragment list, including the empty fragment. -/
theorem matchASPath_always_false :
    ∀ (r : RisMessageData) (c : List String), r.MatchASPath c = false :=
  fun _ _ => rfl

/-- C9: MatchPrefix returns true iff some candidate string is exactly equal,
as a string, to some prefix string of the announcement; hence it is false
whenever either list is empty, it performs no subnet or supernet containment
(a /24 candidate inside an announced /16 does not match), and two identical
malformed CIDR strings do match. -/
theorem matchPrefix_exact :
    (∀ (r : RisAnnouncement) (cs : List String),
      r.MatchPrefix cs = true ↔ ∃ c, c ∈ cs ∧ c ∈ r.prefixes)
    ∧ (∀ r : RisAnnouncement, r.MatchPrefix [] = false)
    ∧ (∀ (nh : String) (cs : List String),
        RisAnnouncement.MatchPrefix ⟨nh, []⟩ cs = false)
    ∧ RisAnnouncement.MatchPrefix ⟨"1.2.3.4", ["192.168.0.0/16"]⟩ ["192.168.0.0/24"] = false
    ∧ RisAnnouncement.MatchPrefix ⟨"1.2.3.4", ["192.b.0.0/24"]⟩ ["192.b.0.0/24"] = true := by
  refine ⟨?_, ?_, ?_, by decide, by decide⟩
  · intro r cs
    simp [RisAnnouncement.MatchPrefix, List.any_eq_true]
  · intro r
    simp [RisAnnouncement.MatchPrefix]
  · intro nh cs
    simp [RisAnnouncement.MatchPrefix]

/-- C8: a decode error is fatal to the ingestion loop: whatever well-decoded
records precede it and whatever the stream holds after it, the loop processes
exactly the preceding records, logs the decode failure, and terminates. -/
theorem decode_error_fatal :
    ∀ (pre : List RisMessage) (e : String) (post : List (Except String RisMessage)),
      listenLoop (pre.map Except.ok ++ Except.error e :: post)
        = (pre, ["failed to decode json: " ++ e]) := by
  intro pre e post
  induction pre with
  | nil => rfl
  | cons m ms ih => simp [listenLoop, ih]

/-- C5 (code bug): when the remote transport connection fails, Listen logs the
failure but then crashes on a nil-pointer dereference instead of terminating
cleanly with zero records: its outcome is `nilDereference`, never `ran`. -/
theorem listen_connect_failure_crashes :
    listen TransportOutcome.remoteConnectError
      = ListenOutcome.nilDereference ["failed to connect to ris-live"]
    ∧ ∀ (ms : List RisMessage) (ls : List String),
        listen TransportOutcome.remoteConnectError ≠ ListenOutcome.ran ms ls :=
  ⟨rfl, fun _ _ h => ListenOutcome.noConfusion h⟩

/-- C4: digest walks the raw path left to right and returns the ordered int32
sequence in which each nested AS-set is flattened exactly one level with its
leaves appended in their original order; if any leaf is a string/word the
whole record fails with a DigestError and no partial sequence is produced;
in particular digest [2497, 6453, 18705, 26281, [13340]] flattens to
[2497, 6453, 18705, 26281, 13340]. -/
theorem digest_correct :
    (∀ path : List RawElem, (∀ l ∈ pathLeaves path, leafNum l = true) →
      digest path = Except.ok ((pathLeaves path).map leafVal))
    ∧ (∀ path : List RawElem, (∃ l ∈ pathLeaves path, leafNum l = false) →
      ∃ e, digest path = Except.error e)
    ∧ digest [RawElem.leaf (RawLeaf.num 2497), RawElem.leaf (RawLeaf.num 6453),
        RawElem.leaf (RawLeaf.num 18705), RawElem.leaf (RawLeaf.num 26281),
        RawElem.asSet [RawLeaf.num 13340]]
      = Except.ok [2497, 6453, 18705, 26281, 13340] :=
  ⟨digest_ok, digest_err, rfl⟩

/-- Witness for C4: a concrete all-numeric path digests to its flattened
values, and a concrete path holding a word leaf fails. -/
theorem digest_correct_witness :
    digest [RawElem.leaf (RawLeaf.num 1), RawElem.asSet [RawLeaf.num 2, RawLeaf.num 3]]
      = Except.ok [1, 2, 3]
    ∧ ∃ e, digest [RawElem.leaf (RawLeaf.word "An"), RawElem.leaf (RawLeaf.word "ASN")]
      = Except.error e := by
  constructor
  · have h := digest_correct.1
      [RawElem.leaf (RawLeaf.num 1), RawElem.asSet [RawLeaf.num 2, RawLeaf.num 3]]
      (by decide)
    simpa using h
  · exact digest_correct.2.1
      [RawElem.leaf (RawLeaf.word "An"), RawElem.leaf (RawLeaf.word "ASN")]
      ⟨RawLeaf.word "An", by simp [pathLeaves], rfl⟩

theorem leadsWith_iff (a b : List Int) :
    leadsWith a b = true ↔ ∃ t, a ++ t = b := by
  induction a generalizing b with
  | nil =>
    exact ⟨fun _ => ⟨b, by simp⟩, fun _ => rfl⟩
  | cons x as ih =>
    cases b with
    | nil => simp [leadsWith]
    | cons y bs =>
      simp only [leadsWith, Bool.and_eq_true, beq_iff_eq, ih]
      constructor
      · rintro ⟨hxy, t, ht⟩
        exact ⟨t, by simp [hxy, ht]⟩
      · rintro ⟨t, ht⟩
        simp only [List.cons_append, List.cons_eq_cons] at ht
        exact ⟨ht.1, t, ht.2⟩

theorem scanFragment_iff (frag : List Int) (hf : frag ≠ []) (l : List Int) :
    scanFragment frag l = true ↔ ∃ s t, s ++ frag ++ t = l := by
  induction l with
  | nil =>
    simp only [scanFragment]
    constructor
    · intro h
      simp at h
    · rintro ⟨s, t, hst⟩
      exfalso
      rcases List.append_eq_nil.mp hst with ⟨h2, ht⟩
      rcases List.append_eq_nil.mp h2 with ⟨hs, hfr⟩
      exact hf hfr
  | cons x xs ih =>
    simp only [scanFragment, Bool.or_eq_true, leadsWith_iff, ih]
    constructor
    · rintro (⟨t, ht⟩ | ⟨s, t, hst⟩)
      · exact ⟨[], t, by simpa using ht⟩
      · exact ⟨x :: s, t, by simp [hst]⟩
    · rintro ⟨s, t, hst⟩
      cases s with
      | nil => exact Or.inl ⟨t, by simpa using hst⟩
      | cons y s2 =>
        simp only [List.cons_append, List.cons_eq_cons] at hst
        exact Or.inr ⟨s2, t, hst.2⟩

/-- C2: the AS-path fragment predicate returns true on the empty fragment for
every digested path; on a non-empty fragment it returns true iff the fragment
occurs as a contiguous, order-preserving subsequence of the digested path; and
a fragment longer than the path never matches. -/
theorem aspath_fragment_correct :
    (∀ path : List Int, matchASPathFragment path [] = true)
    ∧ (∀ (path frag : List Int), frag ≠ [] →
        (matchASPathFragment path frag = true ↔ ∃ s t, s ++ frag ++ t = path))
    ∧ (∀ (path frag : List Int), path.length < frag.length →
        matchASPathFragment path frag = false) := by
  refine ⟨fun _ => rfl, ?_, ?_⟩
  · intro path frag hf
    cases frag with
    | nil => exact absurd rfl hf
    | cons f fs => exact scanFragment_iff (f :: fs) hf path
  · intro path frag hlen
    cases frag with
    | nil => simp at hlen
    | cons f fs =>
      by_contra hne
      have htrue : matchASPathFragment path (f :: fs) = true := by
        cases hb : matchASPathFragment path (f :: fs) with
        | true => rfl
        | false => exact absurd hb hne
      obtain ⟨s, t, hst⟩ :=
        (scanFragment_iff (f :: fs) (by simp) path).mp htrue
      have : s.length + (fs.length + t.length + 1) = path.length := by
        simpa [List.length_append] using congrArg List.length hst
      simp only [List.length_cons] at hlen
      omega

/-- Witness for C2: the fragment [3, 4, 5] is found inside the digested path
[1, 2, 3, 4, 5, 6, 7, 8], and a 3-element fragment fails against the
1-element path [1]. -/
theorem aspath_fragment_correct_witness :
    matchASPathFragment [1, 2, 3, 4, 5, 6, 7, 8] [3, 4, 5] = true
    ∧ matchASPathFragment [1] [3, 4, 5] = false :=
  ⟨(aspath_fragment_correct.2.1 [1, 2, 3, 4, 5, 6, 7, 8] [3, 4, 5] (by simp)).mpr
      ⟨[1, 2], [6, 7, 8], by simp⟩,
    aspath_fragment_correct.2.2 [1] [3, 4, 5] (by simp)⟩

/-- C7: the transit-AS predicate tests every element of the digested path
except index 0: it is false on the empty deny-set, and true iff some element
at a positive index is a member of the deny-set; in particular AS 4 is found
in transit position in [1, 2, 3, 4, 5, 6, 7, 8]. -/
theorem transitAS_correct :
    (∀ path : List Int, invalidTransitAS path [] = false)
    ∧ (∀ (path invalid : List Int),
        (invalidTransitAS path invalid = true ↔
          ∃ i, ∃ h : i < path.length, 0 < i ∧ path.get ⟨i, h⟩ ∈ invalid))
    ∧ invalidTransitAS [1, 2, 3, 4, 5, 6, 7, 8] [4] = true := by
  refine ⟨?_, ?_, by decide⟩
  · intro path
    simp [invalidTransitAS]
  · intro path invalid
    cases path with
    | nil =>
      simp [invalidTransitAS]
    | cons p ps =>
      simp only [invalidTransitAS, List.drop_one, List.tail_cons,
        List.any_eq_true]
      constructor
      · rintro ⟨x, hx, hmem⟩
        obtain ⟨⟨j, hj⟩, hget⟩ := List.mem_iff_get.mp hx
        refine ⟨j + 1, Nat.succ_lt_succ hj, Nat.succ_pos j, ?_⟩
        rw [List.get_cons_succ, hget]
        simpa using hmem
      · rintro ⟨i, h, hpos, hmem⟩
        cases i with
        | zero => exact absurd hpos (by simp)
        | succ j =>
          refine ⟨ps.get ⟨j, Nat.lt_of_succ_lt_succ h⟩, List.get_mem ps j _, ?_⟩
          rw [List.get_cons_succ] at hmem
          simpa using hmem

/-- C1: for prefixes that parse, contains is true iff the two sides are the
same address family, the candidate prefix length is at least the container
prefix length, and the candidate network address under the container mask
equals the container network address; in particular a /24 inside the matching
/16 is contained, a different /16 is not, and no pair of prefixes of
different address families is ever contained. -/
theorem contains_containment :
    (∀ (cs ds : String) (c d : CIDR), parseCIDR cs = some c → parseCIDR ds = some d →
      (contains cs ds = true ↔
        (c.family = d.family ∧ c.plen ≤ d.plen ∧
          maskAddr c.family c.plen d.addr = maskAddr c.family c.plen c.addr)))
    ∧ contains "192.168.0.0/16" "192.168.0.0/24" = true
    ∧ contains "192.168.0.0/16" "197.168.0.0/16" = false
    ∧ (∀ (cs ds : String) (c d : CIDR), parseCIDR cs = some c → parseCIDR ds = some d →
        c.family ≠ d.family → contains cs ds = false) := by
  have hiff : ∀ (cs ds : String) (c d : CIDR),
      parseCIDR cs = some c → parseCIDR ds = some d →
      (contains cs ds = true ↔
        (c.family = d.family ∧ c.plen ≤ d.plen ∧
          maskAddr c.family c.plen d.addr = maskAddr c.family c.plen c.addr)) := by
    intro cs ds c d hc hd
    simp [contains, hc, hd, Bool.and_eq_true, decide_eq_true_iff, and_assoc]
  refine ⟨hiff, by decide, by decide, ?_⟩
  intro cs ds c d hc hd hne
  cases hb : contains cs ds with
  | false => rfl
  | true => exact absurd ((hiff cs ds c d hc hd).mp hb).1 hne

/-- Witness for C1: a /16 inside a matching /8 is contained, and a v4
container never contains a v6 candidate. -/
theorem contains_containment_witness :
    contains "10.0.0.0/8" "10.1.0.0/16" = true
    ∧ contains "192.168.0.0/16" "2001:db8::/32" = false :=
  ⟨(contains_containment.1 "10.0.0.0/8" "10.1.0.0/16"
      ⟨IPFamily.v4, 167772160, 8⟩ ⟨IPFamily.v4, 167837696, 16⟩
      (by decide) (by decide)).mpr (by decide),
    contains_containment.2.2.2 "192.168.0.0/16" "2001:db8::/32"
      ⟨IPFamily.v4, 3232235520, 16⟩ ⟨IPFamily.v6, 536939960 * 2 ^ 96, 32⟩
      (by decide) (by decide) (by decide)⟩

/-- C6: malformed CIDR text on either side makes contains return false (the
function is total, so no error path exists); "192.b.0.0/16" is such a
malformed prefix. -/
theorem contains_malformed_false :
    (∀ a b : String, parseCIDR a = none → contains a b = false)
    ∧ (∀ a b : String, parseCIDR b = none → contains a b = false)
    ∧ parseCIDR "192.b.0.0/16" = none := by
  refine ⟨?_, ?_, by decide⟩
  · intro a b ha
    cases hb : parseCIDR b <;> simp [contains, ha, hb]
  · intro a b hb
    cases ha : parseCIDR a <;> simp [contains, ha, hb]

/-- Witness for C6: a malformed prefix on the container side and on the
candidate side each yield false. -/
theorem contains_malformed_false_witness :
    contains "192.b.0.0/16" "192.168.0.0/24" = false
    ∧ contains "192.168.0.0/24" "192.b.0.0/16" = false :=
  ⟨contains_malformed_false.1 "192.b.0.0/16" "192.168.0.0/24" (by decide),
    contains_malformed_false.2.1 "192.168.0.0/24" "192.b.0.0/16" (by decide)⟩

theorem listenQueue_all_ok (feed : List MessageData)
    (h : ∀ m ∈ feed, ∀ l ∈ pathLeaves m.rawPath, leafNum l = true) :
    listenQueue (feed.map Except.ok)
      = (feed.map (fun m =>
          { m with digestedPath := (pathLeaves m.rawPath).map leafVal }), []) := by
  induction feed with
  | nil => rfl
  | cons m ms ih =>
    have hm := h m (List.mem_cons_self m ms)
    have hms : ∀ x ∈ ms, ∀ l ∈ pathLeaves x.rawPath, leafNum l = true :=
      fun x hx => h x (List.mem_cons_of_mem m hx)
    simp [listenQueue, digest_ok m.rawPath hm, ih hms]

/-- C3: feeding N well-formed records (records whose path leaves are all
numeric, as the input schema of §6 requires) through the ingestion loop pushes
exactly N records onto the output queue, in input order, each with its
digestedPath populated from its raw path and its raw hex string preserved
byte-for-byte. -/
theorem listen_wellformed_feed :
    ∀ feed : List MessageData,
      (∀ m ∈ feed, ∀ l ∈ pathLeaves m.rawPath, leafNum l = true) →
      (listenQueue (feed.map Except.ok)).1
          = feed.map (fun m =>
              { m with digestedPath := (pathLeaves m.rawPath).map leafVal })
        ∧ (listenQueue (feed.map Except.ok)).1.map (fun m => m.raw)
          = feed.map (fun m => m.raw)
        ∧ (listenQueue (feed.map Except.ok)).1.length = feed.length := by
  intro feed h
  have hmain := listenQueue_all_ok feed h
  refine ⟨by rw [hmain], ?_, ?_⟩
  · rw [hmain]
    simp [List.map_map]
  · rw [hmain]
    simp

/-- Witness for C3: a concrete two-record feed yields exactly the two records,
in order, with digested paths populated and raw payloads untouched. -/
theorem listen_wellformed_feed_witness :
    (listenQueue (([⟨[RawElem.leaf (RawLeaf.num 57695), RawElem.leaf (RawLeaf.num 37650)],
          [], "FFFF003E02"⟩,
        ⟨[RawElem.leaf (RawLeaf.num 2497), RawElem.asSet [RawLeaf.num 13340]],
          [], "FFFF007002"⟩] : List MessageData).map Except.ok)).1
      = [⟨[RawElem.leaf (RawLeaf.num 57695), RawElem.leaf (RawLeaf.num 37650)],
          [57695, 37650], "FFFF003E02"⟩,
        ⟨[RawElem.leaf (RawLeaf.num 2497), RawElem.asSet [RawLeaf.num 13340]],
          [2497, 13340], "FFFF007002"⟩] := by
  rw [(listen_wellformed_feed
    [⟨[RawElem.leaf (RawLeaf.num 57695), RawElem.leaf (RawLeaf.num 37650)],
        [], "FFFF003E02"⟩,
      ⟨[RawElem.leaf (RawLeaf.num 2497), RawElem.asSet [RawLeaf.num 13340]],
        [], "FFFF007002"⟩] (by decide)).1]
  decide
